import Mathlib

/-!
Shallow embedding of the CognitiveScrum repository core
(src/src/agents/interview_agent.py, src/src/utils.py, src/src/config.py,
src/src/db_handler.py, src/main.py) and verification of the frozen claims.

Python strings are modelled as lists of characters (`Str`), Python ints as
`Int` (unbounded), fallible operations as `Option`.  All definitions are
executable and structurally recursive so that concrete inputs evaluate by
kernel reduction.
-/

set_option maxRecDepth 10000

/-- Python strings are modelled as lists of characters. -/
abbrev Str := List Char

/-- Coerce a Lean string literal into the character-list model. -/
def str (s : String) : Str := s.data

/-! ### Python string primitives -/

/-- Characters that Python's default `str.strip` / `str.split` treat as
whitespace (ASCII fragment). -/
def isPySpace (c : Char) : Bool :=
  c == ' ' || c == '\t' || c == '\n' || c == '\r' || c == '\x0b' || c == '\x0c'

/-- Python `str.startswith` on the character-list model. -/
def startsW : Str → Str → Bool
  | [], _ => true
  | _ :: _, [] => false
  | n :: ns, h :: hs => n == h && startsW ns hs

/-- Python substring membership `needle in hay`. -/
def hasSub (n : Str) : Str → Bool
  | [] => n.isEmpty
  | c :: rest => startsW n (c :: rest) || hasSub n rest

/-- Python `ch in s` for a single character. -/
def hasCh (c : Char) (l : Str) : Bool := l.any (fun x => x == c)

/-- Python `str.lower` (ASCII). -/
def pyLower (l : Str) : Str := l.map Char.toLower

/-- Python `str.upper` (ASCII). -/
def pyUpper (l : Str) : Str := l.map Char.toUpper

/-- Drop leading Python whitespace. -/
def trimL (l : Str) : Str := l.dropWhile isPySpace

/-- Drop trailing Python whitespace. -/
def trimR (l : Str) : Str := ((l.reverse).dropWhile isPySpace).reverse

/-- Python `str.strip()`. -/
def pyStrip (l : Str) : Str := trimR (trimL l)

/-- Fuel-driven worker for `pyReplace`; the fuel is an upper bound on the
number of characters consumed, so the wrapper passes the input length. -/
def replFuel (old new : Str) : Nat → Str → Str
  | 0, l => l
  | _ + 1, [] => []
  | f + 1, c :: rest =>
    if startsW old (c :: rest) then
      new ++ replFuel old new f (rest.drop (old.length - 1))
    else
      c :: replFuel old new f rest

/-- Python `s.replace(old, new)` for a non-empty `old` (all uses in the
repository pass non-empty literals). -/
def pyReplace (s old new : Str) : Str := replFuel old new s.length s

/-- Flagged worker for `pyReplaceFirst`. -/
def replFirstFuel (old new : Str) : Nat → Str → Str
  | 0, l => l
  | _ + 1, [] => []
  | f + 1, c :: rest =>
    if startsW old (c :: rest) then
      new ++ rest.drop (old.length - 1)
    else
      c :: replFirstFuel old new f rest

/-- Python `s.replace(old, new, 1)` for a non-empty `old`. -/
def pyReplaceFirst (s old new : Str) : Str := replFirstFuel old new s.length s

/-- Split a string on a separator character; mirrors Python
`str.split(sep)` for a one-character separator. -/
def splitCh (sep : Char) : Str → List Str
  | [] => [[]]
  | c :: rest =>
    if c == sep then
      [] :: splitCh sep rest
    else
      match splitCh sep rest with
      | g :: gs => (c :: g) :: gs
      | [] => [[c]]

/-- Worker for `pyWords`, accumulating the current word reversed. -/
def wordsAux (cur : Str) : Str → List Str
  | [] => if cur.isEmpty then [] else [cur.reverse]
  | c :: rest =>
    if isPySpace c then
      if cur.isEmpty then wordsAux [] rest else cur.reverse :: wordsAux [] rest
    else
      wordsAux (c :: cur) rest

/-- Python whitespace split `str.split()` (no argument): splits on runs of
whitespace and drops empty pieces. -/
def pyWords (l : Str) : List Str := wordsAux [] l

/-- Join a list of strings with a single-space separator; mirrors
Python `" ".join(xs)`. -/
def joinSp : List Str → Str
  | [] => []
  | [x] => x
  | x :: y :: rest => x ++ ' ' :: joinSp (y :: rest)

/-- Digit-run parser allowing single underscores between digits, as
Python `int` accepts; returns the accumulated value. -/
def digitsU : Nat → Str → Option Nat
  | acc, [] => some acc
  | acc, [c] =>
    if c.isDigit then some (acc * 10 + (c.toNat - 48)) else none
  | acc, c :: d :: rest =>
    if c.isDigit then digitsU (acc * 10 + (c.toNat - 48)) (d :: rest)
    else if c == '_' && d.isDigit then digitsU acc (d :: rest)
    else none

/-- Mandatory first digit for `parseIntPy`. -/
def digitsFirst : Str → Option Nat
  | [] => none
  | c :: rest => if c.isDigit then digitsU (c.toNat - 48) rest else none

/-- Python `int(s)`: strips whitespace, accepts an optional sign and a
digit run (with single underscores between digits); `none` models the
`ValueError` raised on anything else. -/
def parseIntPy (s : Str) : Option Int :=
  match pyStrip s with
  | '+' :: rest => (digitsFirst rest).map Int.ofNat
  | '-' :: rest => (digitsFirst rest).map (fun n => -(n : Int))
  | rest => (digitsFirst rest).map Int.ofNat

/-! ### Interview agent (src/src/agents/interview_agent.py)

`InterviewerAgent.generate_question` builds a prompt from the chat
history and context, invokes the LLM, and parses the tagged response
lines.  The Oracle is modelled as a function from the prompt to
`Option Str`; `none` models an exception raised by the call (the only
operation inside the `try` block that can raise to the outer handler). -/

/-- Result dictionary of `generate_question`. -/
structure QRes where
  question : Str
  score : Int
  ready : Bool
deriving DecidableEq, Repr

/-- Running parse state while iterating over response lines. -/
structure IState where
  q : Str
  sc : Int
  rd : Bool
deriving DecidableEq, Repr

def questionTag : Str := str "QUESTION:"

def scoreTag : Str := str "SUFFICIENCY_SCORE:"

def readyTag : Str := str "READY_TO_PLAN:"

/-- One iteration of the response-parsing loop in
`generate_question` (interview_agent.py lines 78-88). -/
def respStep (st : IState) (line : Str) : IState :=
  if startsW questionTag line then
    { st with q := pyStrip (pyReplace line questionTag []) }
  else if startsW scoreTag line then
    { st with sc := (parseIntPy (pyStrip (pyReplace line scoreTag []))).getD 0 }
  else if startsW readyTag line then
    let rs := pyLower (pyStrip (pyReplace line readyTag []))
    { st with rd := rs == str "true" || decide (st.sc ≥ 80) }
  else st

/-- Default question substituted when no `QUESTION:` line parsed
(interview_agent.py line 91). -/
def defaultQuestion : Str :=
  str "Could you tell me more about the project timeline and deadlines?"

/-- Hardcoded fallback returned when the Oracle call raises
(interview_agent.py lines 99-104). -/
def fallbackRes : QRes :=
  ⟨str "What are the key deadlines and priorities for this sprint?", 30, false⟩

/-- Parse an Oracle response text into the result dictionary
(interview_agent.py lines 73-97): iterate over lines, substitute the
default question, clamp the score to [0,100]. -/
def parseResponse (t : Str) : QRes :=
  let st := (splitCh '\n' t).foldl respStep ⟨[], 0, false⟩
  ⟨if st.q.isEmpty then defaultQuestion else st.q,
   min 100 (max 0 st.sc), st.rd⟩

/-- Conversation rendering (interview_agent.py lines 28-32):
each turn contributes ROLE uppercased, a colon-space, content, newline. -/
def buildConversation (hist : List (Str × Str)) : Str :=
  hist.foldl (fun acc rc => acc ++ pyUpper rc.1 ++ str ": " ++ rc.2 ++ ['\n']) []

/-- Prompt assembly (interview_agent.py lines 34-67).  The fixed
instruction template around the two interpolation points is a large
block of static text; it is carried verbatim-in-structure as opaque
constants since no claim depends on its wording. -/
def promptPre : Str :=
  str "You are an expert Scrum Master conducting a discovery interview to gather PROJECT REQUIREMENTS ONLY.\nEXISTING CONTEXT:\n"

def promptMid : Str := str "\nCONVERSATION SO FAR:\n"

def promptPost : Str :=
  str "\nRespond in this EXACT format:\nQUESTION: [your question here]\nSUFFICIENCY_SCORE: [0-100]\nREADY_TO_PLAN: [true/false] (true if score >= 80)\n"

def buildPrompt (hist : List (Str × Str)) (ctx : Str) : Str :=
  promptPre ++ ctx ++ promptMid ++ buildConversation hist ++ promptPost

/-- `InterviewerAgent.generate_question` (interview_agent.py lines 15-104):
build the prompt, invoke the Oracle, parse; an Oracle exception
(`oracle _ = none`) yields the hardcoded fallback.  The function is
total: every raising operation of the Python body is inside the
`try`/`except` pair. -/
def generate_question (hist : List (Str × Str)) (ctx : Str)
    (oracle : Str → Option Str) : QRes :=
  match oracle (buildPrompt hist ctx) with
  | none => fallbackRes
  | some t => parseResponse t

/-- Effect of one parsed line on the raw `sufficiency_score` variable
alone (the score-relevant projection of `respStep`). -/
def scoreStep (s : Int) (l : Str) : Int :=
  if startsW questionTag l then s
  else if startsW scoreTag l then
    (parseIntPy (pyStrip (pyReplace l scoreTag []))).getD 0
  else s

/-- Raw (unclamped) score accumulated over a list of lines: the value the
`sufficiency_score` variable holds after the parsing loop. -/
def scoreAcc (ls : List Str) : Int := ls.foldl scoreStep 0

/-! ### Model-name normalization (src/src/config.py lines 46-82)

`ModelConfig._normalize_model_id(model_name, base_url)` maps user-entered
model names to LiteLLM provider-qualified identifiers. -/

def normalize_model_id (modelName : Str) (baseUrl : Option Str) : Str :=
  let mn0 := pyStrip modelName
  let mn := if mn0.isEmpty then str "llama3" else mn0
  if hasCh '/' mn then
    if startsW (str "models/") mn then
      str "gemini/" ++ pyReplaceFirst mn (str "models/") []
    else mn
  else
    let bu := pyStrip (baseUrl.getD [])
    let isLocal := !bu.isEmpty &&
      (hasSub (str "localhost") bu || hasSub (str "127.0.0.1") bu)
    if isLocal then str "ollama/" ++ mn
    else if startsW (str "gpt-") mn || startsW (str "o1-") mn ||
        startsW (str "o3-") mn then str "openai/" ++ mn
    else if startsW (str "claude-") mn then str "anthropic/" ++ mn
    else if startsW (str "gemini") mn then str "gemini/" ++ mn
    else mn

/-! ### Text chunking (src/src/db_handler.py lines 220-240)

`DBHandler._chunk_text(text, chunk_size)` greedily packs
whitespace-separated words into chunks. -/

/-- Accumulator state of the chunking loop: finished chunks, current
chunk words, current length. -/
structure ChunkSt where
  chunks : List Str
  cur : List Str
  curLen : Int
deriving Repr

/-- One iteration of the word loop in `_chunk_text`. -/
def chunkStep (chunkSize : Int) (st : ChunkSt) (w : Str) : ChunkSt :=
  let wl : Int := w.length + 1
  if st.curLen + wl > chunkSize && !st.cur.isEmpty then
    ⟨st.chunks ++ [joinSp st.cur], [w], wl⟩
  else
    ⟨st.chunks, st.cur ++ [w], st.curLen + wl⟩

/-- Final flush of the chunking loop and the fallback to the whole text
when no chunk was made. -/
def chunkFinish (text : Str) (st : ChunkSt) : List Str :=
  match (if st.cur.isEmpty then st.chunks else st.chunks ++ [joinSp st.cur]) with
  | [] => [text]
  | l => l

/-- `DBHandler._chunk_text`: split into words, pack greedily, flush the
last chunk, and fall back to the whole text when no chunk was made. -/
def chunk_text (text : Str) (chunkSize : Int) : List Str :=
  chunkFinish text ((pyWords text).foldl (chunkStep chunkSize) ⟨[], [], 0⟩)

/-! ### Batch ingestion (src/main.py lines 185-249)

Resume processing wraps the `try`/`except` around each file of the
batch; backlog processing wraps a single `try`/`except` around the whole
loop.  A file input is modelled as its name together with the parse
outcome (`none` models the parser raising). -/

/-- Per-file resume loop (main.py lines 188-205): each failure produces
one per-file error, the remaining files are still processed. -/
def processResumes (files : List (Str × Option Str)) : List Str × List Str :=
  files.foldl
    (fun acc f =>
      match f.2 with
      | some txt => (acc.1 ++ [txt], acc.2)
      | none => (acc.1, acc.2 ++ [str "Error processing " ++ f.1]))
    ([], [])

/-- Backlog loop body (main.py lines 221-247): files are processed in
order inside one `try`; the first parse failure aborts the batch with a
single batch-level error, keeping the items already ingested. -/
def processBacklog : List (Str × Option (List Str)) → List Str × List Str
  | [] => ([], [])
  | (_, none) :: _ => ([], [str "Error processing backlog"])
  | (_, some items) :: rest =>
    let r := processBacklog rest
    (items ++ r.1, r.2)

/-! ### Sprint-plan extraction (src/src/utils.py lines 126-326)

`parse_sprint_plan_output(plan_text)` runs a line scanner for markdown
tables (tier 1), a regex fallback (tier 2), and returns a DataFrame with
five fixed columns plus the original text. -/

/-- Enumerate a list with indices starting at `i`; mirrors Python
`enumerate`. -/
def enumF (i : Nat) : List α → List (Nat × α)
  | [] => []
  | a :: rest => (i, a) :: enumF (i + 1) rest

/-- ASCII fragment of Python `str.isalnum`. -/
def isAlnumA (c : Char) : Bool := c.isAlpha || c.isDigit

/-- Header keywords opening a table section (utils.py line 156). -/
def headerKws : List Str :=
  [str "task_id", str "assignee", str "estimated_hours", str "risk_level",
   str "reasoning_trace"]

/-- Continuation keywords for the in-scan reasoning merge
(utils.py line 174). -/
def contKws : List Str := [str "assignment:", str "estimate:", str "risk:", str "**"]

/-- Scanner state: whether a table section is open, and the captured
rows as (line content, line number) pairs. -/
structure ScanSt where
  inSec : Bool
  rows : List (Str × Nat)
deriving DecidableEq, Repr

/-- One iteration of the table-detection loop (utils.py lines 151-189). -/
def scanStep (st : ScanSt) (il : Nat × Str) : ScanSt :=
  let i := il.1
  let line := il.2
  let ll := pyStrip (pyLower line)
  let ls := pyStrip line
  if headerKws.any (fun kw => hasSub kw ll) && hasCh '|' line then
    ⟨true, st.rows ++ [(line, i)]⟩
  else if st.inSec then
    if hasCh '|' line && line.any isAlnumA then
      ⟨st.inSec, st.rows ++ [(line, i)]⟩
    else if ls.isEmpty then st
    else if !hasCh '|' line && decide (0 < i) then
      match st.rows.getLast? with
      | some last =>
        if i - last.2 ≤ 5 then
          if contKws.any (fun kw => hasSub kw (pyLower ls)) then
            ⟨st.inSec, st.rows.dropLast ++ [(last.1 ++ ' ' :: ls, last.2)]⟩
          else if i - last.2 ≤ 2 then
            ⟨st.inSec, st.rows.dropLast ++ [(last.1 ++ ' ' :: ls, last.2)]⟩
          else st
        else ⟨false, st.rows⟩
      | none => ⟨false, st.rows⟩
    else ⟨false, st.rows⟩
  else st

/-- Characters allowed in a markdown separator cell (utils.py line 208). -/
def sepCellChars : Str := str "-: "

/-- Clean one captured line into trimmed cells (utils.py lines 195-210):
split on the pipe, trim, drop empty edge cells, require at least three
cells, and drop pure separator rows. -/
def cleanupRow (lineData : Str) : Option (List Str) :=
  if hasCh '|' lineData then
    let parts0 := (splitCh '|' lineData).map pyStrip
    let p1 := match parts0 with
      | p :: rest => if p.isEmpty then rest else parts0
      | [] => parts0
    let p2 := match p1.getLast? with
      | some lastP => if lastP.isEmpty then p1.dropLast else p1
      | none => p1
    if !p2.isEmpty && decide (3 ≤ p2.length) then
      let isSep := p2.all (fun p => (pyStrip p).isEmpty ||
        (pyStrip p).all (fun c => hasCh c sepCellChars))
      if !isSep then some p2 else none
    else none
  else none

/-- Resolved column indices (utils.py lines 216-233). -/
structure Cols where
  task : Option Nat
  assignee : Option Nat
  hours : Option Nat
  risk : Option Nat
  reason : Option Nat
deriving DecidableEq, Repr

/-- Column-resolution step over the enumerated header cells. -/
def colStep (cs : Cols) (ih : Nat × Str) : Cols :=
  let idx := ih.1
  let hl := pyLower ih.2
  let c1 := if hasSub (str "task") hl && cs.task.isNone then
    { cs with task := some idx } else cs
  let c2 := if hasSub (str "assign") hl && c1.assignee.isNone then
    { c1 with assignee := some idx } else c1
  let c3 := if hasSub (str "hour") hl || hasSub (str "time") hl ||
      hasSub (str "estimat") hl then { c2 with hours := some idx } else c2
  let c4 := if hasSub (str "risk") hl then { c3 with risk := some idx } else c3
  if hasSub (str "reason") hl || hasSub (str "trace") hl then
    { c4 with reason := some idx } else c4

def resolveCols (headers : List Str) : Cols :=
  (enumF 0 headers).foldl colStep ⟨none, none, none, none, none⟩

/-- A structured task assignment (the dict built at utils.py lines
286-292, with keys Task_ID, Assignee, Estimated_Hours, Risk_Level,
Reasoning_Trace). -/
structure Assignment where
  taskId : Str
  assignee : Str
  hours : Str
  risk : Str
  reasoning : Str
deriving DecidableEq, Repr

def naStr : Str := str "N/A"

/-- Positional cell read with the `is not None and in range` guard
(utils.py lines 248-251). -/
def getCell (row : List Str) (col : Option Nat) : Str :=
  match col with
  | some c => if c < row.length then row.getD c [] else naStr
  | none => naStr

/-- Task-row patterns that stop reasoning collection
(utils.py line 269). -/
def newTaskPats : List Str :=
  [str "s1-t", str "s2-t", str "s3-t", str "s4-t", str "s5-t", str "t-"]

/-- Case-sensitive reasoning keywords of the secondary re-scan
(utils.py line 273). -/
def contKws2 : List Str :=
  [str "**Assignment:**", str "**Estimate:**", str "**Risk:**",
   str "Assignment:", str "Estimate:", str "Risk:"]

/-- Collect reasoning continuation lines (utils.py lines 263-281):
iterate the given line numbers, stop at a new task row or when more
than five lines are collected, keep keyword lines, continuation lines,
or a long first line. -/
def collectGo (linesList : List Str) : List Nat → List Str → List Str
  | [], acc => acc
  | n :: ns, acc =>
    let nl := pyStrip (linesList.getD n [])
    if hasCh '|' nl && newTaskPats.any (fun p => hasSub p (pyLower nl)) then acc
    else if !nl.isEmpty && !startsW (str "|") nl then
      if contKws2.any (fun kw => hasSub kw nl) then
        collectGo linesList ns (acc ++ [nl])
      else if !acc.isEmpty && !nl.isEmpty then
        if 5 < acc.length then acc else collectGo linesList ns (acc ++ [nl])
      else if acc.isEmpty && 50 < nl.length then
        collectGo linesList ns (acc ++ [nl])
      else collectGo linesList ns acc
    else collectGo linesList ns acc

/-- Locate the original line of a data row (utils.py lines 260-261):
first line containing the task id, a pipe, and the first ten characters
of the assignee. -/
def findRowLine (linesList : List Str) (taskId assignee10 : Str) : Option Nat :=
  (enumF 0 linesList).findSome? fun il =>
    if hasSub taskId il.2 && hasCh '|' il.2 && hasSub assignee10 il.2 then
      some il.1
    else none

/-- Reasoning-continuation result from the located source line
(utils.py lines 262-284): scan up to fourteen following lines and, when
anything was collected, append it space-joined to the cell text. -/
def reasoningOf (linesList : List Str) (reasoning0 : Str) (found : Option Nat) :
    Str :=
  match found with
  | some ln =>
    let hi := min (ln + 15) linesList.length
    let rls := collectGo linesList (List.range' (ln + 1) (hi - (ln + 1))) []
    if rls.isEmpty then reasoning0
    else pyStrip (reasoning0 ++ ' ' :: joinSp rls)
  | none => reasoning0

/-- Extract one assignment from a cleaned data row
(utils.py lines 239-295). -/
def extractRow (linesList : List Str) (cs : Cols) (row : List Str) :
    Option Assignment :=
  if row.all (fun part =>
      (pyStrip (pyReplace (pyReplace (pyStrip part) (str "-") []) (str ":") [])).isEmpty) then
    none
  else
    let colList := [cs.task, cs.assignee, cs.hours, cs.risk, cs.reason].filterMap id
    let maxCol : Int := colList.foldl (fun m c => max m (c : Int)) (-1)
    if (row.length : Int) > maxCol then
      let taskId := getCell row cs.task
      let assignee := getCell row cs.assignee
      let hours := getCell row cs.hours
      let risk := getCell row cs.risk
      let reasoning0 := match cs.reason with
        | some c => if c < row.length then row.getD c [] else []
        | none => []
      let reasoning1 := reasoningOf linesList reasoning0
        (findRowLine linesList taskId (assignee.take 10))
      let reasoningF := if reasoning1.isEmpty then str "See full report" else reasoning1
      if taskId != naStr && assignee != naStr then
        some ⟨taskId, assignee, hours, risk, reasoningF⟩
      else none
    else none

/-- Tier 1 (utils.py lines 192-295): clean captured rows, resolve
columns from the first cleaned row, extract the remaining rows. -/
def tier1 (linesList : List Str) (rows : List (Str × Nat)) : List Assignment :=
  let cleaned := rows.filterMap (fun r => cleanupRow r.1)
  match cleaned with
  | header :: d1 :: drest =>
    (d1 :: drest).filterMap (extractRow linesList (resolveCols header))
  | _ => []

/-! #### Tier-2 regex engine

The Python fallback (utils.py lines 299-317) scans with the pattern

  (?:Task[_\s]*(?:ID)?[:\s]*)?([T\-]?\d+|[A-Z]+\-\d+)[:\s]+
  (?:Assignee[:\s]+)?([A-Za-z\s]+?)(?:[,\s]+Hours?[:\s]+)?(\d+)?
  (?:[,\s]+Risk[:\s]+)?([A-Za-z]+)?

with IGNORECASE and MULTILINE.  All repetitions range over one-character
classes, so the backtracking search is hand-compiled in
continuation-passing style following the engine's preference order:
greedy pieces try the longest extent first, the lazy group the shortest,
alternatives left to right, every choice retried against the full
continuation. -/

/-- Regex match result: the four capture groups and the remaining text
after the match. -/
structure MRes where
  g1 : Str
  g2 : Str
  g3 : Option Str
  g4 : Option Str
  rest : Str
deriving DecidableEq, Repr

/-- Class \s (ASCII fragment). -/
def clSpace (c : Char) : Bool := isPySpace c

/-- Class [A-Z] under IGNORECASE. -/
def clLetter (c : Char) : Bool := c.isAlpha

/-- Class [A-Za-z\s]. -/
def clLetterSp (c : Char) : Bool := c.isAlpha || clSpace c

/-- Class [:\s]. -/
def clColonSp (c : Char) : Bool := c == ':' || clSpace c

/-- Class [,\s]. -/
def clCommaSp (c : Char) : Bool := c == ',' || clSpace c

/-- Class [_\s]. -/
def clUndSp (c : Char) : Bool := c == '_' || clSpace c

/-- Class [T\-] under IGNORECASE. -/
def clTDash (c : Char) : Bool := c.toLower == 't' || c == '-'

/-- Class \d. -/
def clDigit (c : Char) : Bool := c.isDigit

/-- Greedy star over a character class: longest repetition first. -/
def reStar (cls : Char → Bool) (k : Str → Option MRes) : Str → Option MRes
  | [] => k []
  | c :: rest =>
    (if cls c then reStar cls k rest else none) <|> k (c :: rest)

/-- Greedy plus over a character class. -/
def rePlus (cls : Char → Bool) (k : Str → Option MRes) : Str → Option MRes
  | [] => none
  | c :: rest => if cls c then reStar cls k rest else none

/-- Worker for the capturing greedy plus. -/
def rePlusCapGo (cls : Char → Bool) (k : Str → Str → Option MRes) (acc : Str) :
    Str → Option MRes
  | [] => k acc.reverse []
  | c :: rest =>
    (if cls c then rePlusCapGo cls k (c :: acc) rest else none) <|>
      k acc.reverse (c :: rest)

/-- Capturing greedy plus over a character class. -/
def rePlusCap (cls : Char → Bool) (k : Str → Str → Option MRes) :
    Str → Option MRes
  | [] => none
  | c :: rest => if cls c then rePlusCapGo cls k [c] rest else none

/-- Worker for the capturing lazy plus. -/
def rePlusLazyGo (cls : Char → Bool) (k : Str → Str → Option MRes) (acc : Str)
    (l : Str) : Option MRes :=
  k acc.reverse l <|>
    match l with
    | c :: rest => if cls c then rePlusLazyGo cls k (c :: acc) rest else none
    | [] => none

/-- Capturing lazy plus over a character class: shortest extent first. -/
def rePlusLazy (cls : Char → Bool) (k : Str → Str → Option MRes) :
    Str → Option MRes
  | [] => none
  | c :: rest => if cls c then rePlusLazyGo cls k [c] rest else none

/-- Case-insensitive literal. -/
def reLit (w : Str) (k : Str → Option MRes) : Str → Option MRes :=
  match w with
  | [] => k
  | wc :: ws => fun l =>
    match l with
    | [] => none
    | c :: rest => if wc.toLower == c.toLower then reLit ws k rest else none

/-- Group 1, first alternative: [T\-]?\d+ (optional greedy, then greedy
digits), capturing the consumed text. -/
def g1Alt1 (k : Str → Str → Option MRes) (l : Str) : Option MRes :=
  (match l with
   | c :: rest =>
     if clTDash c then rePlusCap clDigit (fun d r => k (c :: d) r) rest else none
   | [] => none)
  <|> rePlusCap clDigit k l

/-- Group 1, second alternative: [A-Z]+\-\d+. -/
def g1Alt2 (k : Str → Str → Option MRes) (l : Str) : Option MRes :=
  rePlusCap clLetter
    (fun a r =>
      match r with
      | '-' :: r2 => rePlusCap clDigit (fun d r3 => k (a ++ '-' :: d) r3) r2
      | _ => none) l

/-- Group 1: the alternation, left alternative preferred. -/
def reG1 (k : Str → Str → Option MRes) (l : Str) : Option MRes :=
  g1Alt1 k l <|> g1Alt2 k l

/-- Body of the optional prefix (?:Task[_\s]*(?:ID)?[:\s]*). -/
def reP0body (k : Str → Option MRes) (l : Str) : Option MRes :=
  reLit (str "task")
    (reStar clUndSp (fun r2 =>
      reLit (str "id") (reStar clColonSp k) r2 <|> reStar clColonSp k r2)) l

/-- Optional greedy prefix. -/
def reP0 (k : Str → Option MRes) (l : Str) : Option MRes :=
  reP0body k l <|> k l

/-- Optional (?:Assignee[:\s]+)?. -/
def reP2 (k : Str → Option MRes) (l : Str) : Option MRes :=
  reLit (str "assignee") (rePlus clColonSp k) l <|> k l

/-- Optional (?:[,\s]+Hours?[:\s]+)?. -/
def reP3 (k : Str → Option MRes) (l : Str) : Option MRes :=
  rePlus clCommaSp
    (reLit (str "hour") (fun r =>
      reLit (str "s") (rePlus clColonSp k) r <|> rePlus clColonSp k r)) l
  <|> k l

/-- Optional (?:[,\s]+Risk[:\s]+)?. -/
def reP4 (k : Str → Option MRes) (l : Str) : Option MRes :=
  rePlus clCommaSp (reLit (str "risk") (rePlus clColonSp k)) l <|> k l

/-- Attempt the full pattern at the current position. -/
def reMatchAt (l : Str) : Option MRes :=
  reP0 (fun l0 =>
    reG1 (fun g1 l1 =>
      rePlus clColonSp (fun l2 =>
        reP2 (fun l3 =>
          rePlusLazy clLetterSp (fun g2 l4 =>
            reP3 (fun l5 =>
              (rePlusCap clDigit (fun d l6 =>
                reP4 (fun l7 =>
                  (rePlusCap clLetter (fun a l8 => some ⟨g1, g2, some d, some a, l8⟩) l7) <|>
                    some ⟨g1, g2, some d, none, l7⟩) l6) l5) <|>
                reP4 (fun l7 =>
                  (rePlusCap clLetter (fun a l8 => some ⟨g1, g2, none, some a, l8⟩) l7) <|>
                    some ⟨g1, g2, none, none, l7⟩) l5) l4) l3) l2) l1) l0) l

/-- Non-overlapping scan from the left, as `re.finditer`: try each
position in order, resume after each match (every match consumes at
least two characters, so the fuel of the input length suffices). -/
def reScan : Nat → Str → List MRes
  | 0, _ => []
  | _ + 1, [] => []
  | f + 1, c :: rest =>
    match reMatchAt (c :: rest) with
    | some m => m :: reScan f m.rest
    | none => reScan f rest

/-- Tier 2 (utils.py lines 300-317): one assignment per regex match. -/
def tier2 (text : Str) : List Assignment :=
  (reScan (text.length + 1) text).map fun m =>
    ⟨if m.g1.isEmpty then naStr else m.g1,
     if m.g2.isEmpty then naStr else pyStrip m.g2,
     match m.g3 with
     | some h => if h.isEmpty then naStr else h
     | none => naStr,
     match m.g4 with
     | some r => if r.isEmpty then naStr else r
     | none => naStr,
     str "See full report below"⟩

/-- DataFrame model: column names and rows. -/
structure DFrame where
  cols : List Str
  rows : List Assignment
deriving DecidableEq, Repr

/-- The five expected columns (utils.py line 324 and dict keys). -/
def fiveCols : List Str :=
  [str "Task_ID", str "Assignee", str "Estimated_Hours", str "Risk_Level",
   str "Reasoning_Trace"]

/-- Tier 1 applied to the scanner's captured rows; the guard mirrors
`if table_row_indices:` (utils.py line 192). -/
def tier1All (text : Str) : List Assignment :=
  match ((enumF 0 (splitCh '\n' text)).foldl scanStep ⟨false, []⟩).rows with
  | [] => []
  | rs => tier1 (splitCh '\n' text) rs

/-- Tier selection (utils.py line 300): the regex fallback runs only
when tier 1 produced nothing. -/
def assembleAssignments (text : Str) : List Assignment :=
  match tier1All text with
  | [] => tier2 text
  | l => l

/-- DataFrame construction (utils.py lines 320-324): five expected
columns in both the populated and the empty case. -/
def mkFrame : List Assignment → DFrame
  | [] => ⟨fiveCols, []⟩
  | l => ⟨fiveCols, l⟩

/-- `parse_sprint_plan_output` (utils.py lines 126-326): the scanner,
tier 1, the tier-2 fallback when tier 1 produced nothing, and the final
DataFrame with the five expected columns.  The function is total: the
whole tier-1 block is wrapped in `try`/`except pass` in the source and
no other statement can raise. -/
def parse_sprint_plan_output (text : Str) : DFrame × Str :=
  (mkFrame (assembleAssignments text), text)

/-! ## Claim about model-name normalization -/

/-- Effective model name per the amended claim wording: the entered name
stripped of surrounding whitespace, defaulting to llama3 when empty. -/
def effectiveName (n : Str) : Str :=
  if (pyStrip n).isEmpty then str "llama3" else pyStrip n

/-- Namespaced-name rule per the claim wording: a name containing a
slash is kept as-is except that a models/ prefix moves to the gemini/
namespace. -/
def rewriteNamespaced (mn : Str) : Str :=
  if startsW (str "models/") mn then
    str "gemini/" ++ pyReplaceFirst mn (str "models/") []
  else mn

/-- Provider inference per the claim wording: a localhost/loopback base
URL implies the local ollama provider; then the gpt, o1 and o3 dash
prefixes imply openai, claude- implies anthropic, a gemini prefix
implies gemini; otherwise no provider is prefixed. -/
def inferProvider (mn bu : Str) : Option Str :=
  if !bu.isEmpty && (hasSub (str "localhost") bu || hasSub (str "127.0.0.1") bu) then
    some (str "ollama/")
  else if startsW (str "gpt-") mn || startsW (str "o1-") mn ||
      startsW (str "o3-") mn then some (str "openai/")
  else if startsW (str "claude-") mn then some (str "anthropic/")
  else if startsW (str "gemini") mn then some (str "gemini/")
  else none

/-- Normalization as the amended claim describes it, written from the
claim's clauses rather than from the code. -/
def normalizeSpec (modelName : Str) (baseUrl : Option Str) : Str :=
  let mn := effectiveName modelName
  if hasCh '/' mn then rewriteNamespaced mn
  else
    match inferProvider mn (pyStrip (baseUrl.getD [])) with
    | some p => p ++ mn
    | none => mn

/-- The words after the head, each preceded by one space. -/
def tailJoin (ws : List Str) : Str := (ws.map (fun w => ' ' :: w)).flatten

/-- The flattened text represented by a chunking state. -/
def flatSt (st : ChunkSt) : Str := joinSp (st.chunks ++ [joinSp st.cur])

/-- Plain lowercase ASCII letter, expressed on the code point. -/
def isLowerL (c : Char) : Bool := decide (97 ≤ c.toNat) && decide (c.toNat ≤ 122)

/-! The family of inputs for the wrapped-reasoning claim: a one-row
table (without a separator row, which tier 1 cannot survive) whose
reasoning continuation line is the keyword Assignment: followed by an
arbitrary non-empty lowercase word. -/

def c6Header : Str :=
  str "| Task_ID | Assignee | Estimated_Hours | Risk_Level | Reasoning_Trace |"

def c6Row : Str := str "| T-1 | Alice | 8 | Low | Because |"

/-- The wrapped continuation line. -/
def c6Cont (t : Str) : Str := str "Assignment: " ++ t

/-- The full Stage-2 text of the family. -/
def c6Text (t : Str) : Str := c6Header ++ ('\n' :: (c6Row ++ ('\n' :: c6Cont t)))

/-! ## Theorems: supporting lemmas and the claims -/

/-! ## Supporting lemmas for the interview-loop claims -/

/-- Lines that do not carry the `READY_TO_PLAN:` tag leave the ready flag
unchanged. -/
theorem foldl_respStep_rd (ls : List Str) (st : IState)
    (h : ∀ l ∈ ls, startsW readyTag l = false) :
    (ls.foldl respStep st).rd = st.rd := by
  induction ls generalizing st with
  | nil => rfl
  | cons l rest ih =>
    have hl : startsW readyTag l = false := h l (by simp)
    have hrest : ∀ l' ∈ rest, startsW readyTag l' = false := by
      intro l' hl'; exact h l' (by simp [hl'])
    rw [List.foldl_cons, ih _ hrest]
    unfold respStep
    split_ifs with h1 h2 h3
    · rfl
    · rfl
    · simp [h3] at hl
    · rfl

/-- The score component of the full parse fold agrees with the
score-only fold. -/
theorem foldl_respStep_sc (ls : List Str) (st : IState) :
    (ls.foldl respStep st).sc = ls.foldl scoreStep st.sc := by
  induction ls generalizing st with
  | nil => rfl
  | cons l rest ih =>
    rw [List.foldl_cons, List.foldl_cons, ih]
    congr 1
    unfold respStep scoreStep
    split_ifs <;> rfl

/-- A line starting with the ready tag starts with neither of the other
two tags. -/
theorem readyTag_disjoint (l : Str) (h : startsW readyTag l = true) :
    startsW questionTag l = false ∧ startsW scoreTag l = false := by
  match l with
  | [] => simp [startsW, readyTag, str] at h
  | c :: rest =>
    have hc : c = 'R' := by
      have e : readyTag = 'R' :: str "EADY_TO_PLAN:" := rfl
      rw [e] at h
      simp [startsW] at h
      exact h.1.symm
    subst hc
    constructor
    · have e : questionTag = 'Q' :: str "UESTION:" := rfl
      rw [e]; simp [startsW]
    · have e : scoreTag = 'S' :: str "UFFICIENCY_SCORE:" := rfl
      rw [e]; simp [startsW]

/-! ## Claims about the interview loop -/

/-- C1 counterexample: the response announces SUFFICIENCY_SCORE 90 but
carries no READY_TO_PLAN line; the stored score is 90 (at least 80), yet
the returned ready_to_plan is false — refuting the claim that a score of
at least 80 forces readiness regardless of the flag line's presence. -/
theorem C1_counterexample :
    (parseResponse (str "QUESTION: q\nSUFFICIENCY_SCORE: 90")).score = 90 ∧
    (80 : Int) ≤ (parseResponse (str "QUESTION: q\nSUFFICIENCY_SCORE: 90")).score ∧
    (parseResponse (str "QUESTION: q\nSUFFICIENCY_SCORE: 90")).ready = false := by
  refine ⟨by decide, by decide, by decide⟩

/-- C1 (amended): ready_to_plan is assigned only while processing
READY_TO_PLAN lines.  (i) Without such a line it is false no matter the
score.  (ii) With one, the last READY_TO_PLAN line decides it: flag text
equals "true", or the raw score accumulated from the lines before it is
at least 80.  (iii) In particular an explicit true flag yields readiness
even when the final score is below 80. -/
theorem C1_ready_flag_semantics :
    (∀ t : Str, (∀ l ∈ splitCh '\n' t, startsW readyTag l = false) →
      (parseResponse t).ready = false) ∧
    (∀ (t : Str) (pre : List Str) (flag : Str) (suf : List Str),
      splitCh '\n' t = pre ++ flag :: suf →
      startsW readyTag flag = true →
      (∀ l ∈ suf, startsW readyTag l = false) →
      (parseResponse t).ready =
        (pyLower (pyStrip (pyReplace flag readyTag [])) == str "true" ||
          decide (scoreAcc pre ≥ 80))) ∧
    ((parseResponse (str "SUFFICIENCY_SCORE: 10\nREADY_TO_PLAN: true")).ready = true ∧
      (parseResponse (str "SUFFICIENCY_SCORE: 10\nREADY_TO_PLAN: true")).score = 10) := by
  refine ⟨?_, ?_, by decide, by decide⟩
  · intro t h
    show ((splitCh '\n' t).foldl respStep ⟨[], 0, false⟩).rd = false
    rw [foldl_respStep_rd _ _ h]
  · intro t pre flag suf hsplit hflag hsuf
    show ((splitCh '\n' t).foldl respStep ⟨[], 0, false⟩).rd = _
    rw [hsplit, List.foldl_append, List.foldl_cons]
    rw [foldl_respStep_rd _ _ hsuf]
    have hd := readyTag_disjoint flag hflag
    unfold respStep
    rw [if_neg (by simp [hd.1]), if_neg (by simp [hd.2]), if_pos hflag]
    show (pyLower (pyStrip (pyReplace flag readyTag [])) == str "true" ||
      decide ((pre.foldl respStep ⟨[], 0, false⟩).sc ≥ 80)) = _
    rw [foldl_respStep_sc]
    rfl

/-- C1 witness: instantiating the amended theorem at concrete inputs. -/
theorem C1_witness :
    (parseResponse (str "hello")).ready = false ∧
    (parseResponse (str "READY_TO_PLAN: false\nSUFFICIENCY_SCORE: 90")).ready =
      (pyLower (pyStrip (pyReplace (str "READY_TO_PLAN: false") readyTag [])) == str "true" ||
        decide (scoreAcc [] ≥ 80)) :=
  ⟨C1_ready_flag_semantics.1 (str "hello") (by decide),
   C1_ready_flag_semantics.2.1 (str "READY_TO_PLAN: false\nSUFFICIENCY_SCORE: 90")
     [] (str "READY_TO_PLAN: false") [str "SUFFICIENCY_SCORE: 90"]
     (by decide) (by decide) (by decide)⟩

/-- C4 counterexample: the Oracle responds with a non-numeric
SUFFICIENCY_SCORE line; the `int` conversion raises (modelled by
`parseIntPy = none`), i.e. an exception occurs during response parsing,
yet the result is the normally parsed dictionary with score 0 — not the
hardcoded fallback. -/
theorem C4_counterexample :
    parseIntPy (pyStrip (pyReplace (str "SUFFICIENCY_SCORE: abc") scoreTag [])) = none ∧
    generate_question [] []
      (fun _ => some (str "QUESTION: q\nSUFFICIENCY_SCORE: abc")) =
      ⟨str "q", 0, false⟩ ∧
    (⟨str "q", 0, false⟩ : QRes) ≠ fallbackRes := by
  refine ⟨by decide, by decide, by decide⟩

/-- C4 (amended): an exception raised by the Oracle call (or escaping the
parsing code, of which there are none: the only raising operation, the
`int` conversion, is caught by the inner handler) yields exactly the
hardcoded fallback; a successful Oracle call yields the parsed response.
The function is total — it never raises. -/
theorem C4_fallback_semantics (hist : List (Str × Str)) (ctx : Str)
    (oracle : Str → Option Str) :
    (oracle (buildPrompt hist ctx) = none →
      generate_question hist ctx oracle = fallbackRes) ∧
    (∀ t, oracle (buildPrompt hist ctx) = some t →
      generate_question hist ctx oracle = parseResponse t) := by
  constructor
  · intro h; unfold generate_question; rw [h]
  · intro t h; unfold generate_question; rw [h]

/-- C4 witness: a failing Oracle yields the fallback dictionary. -/
theorem C4_witness :
    generate_question [] [] (fun _ => none) = fallbackRes :=
  (C4_fallback_semantics [] [] (fun _ => none)).1 rfl

/-- C5: the stored sufficiency score always lies in [0,100] and equals
the raw accumulated score clamped to that interval; when no score line
is present, or every score line fails to parse as an integer, the stored
score is 0. -/
theorem C5_score_clamped :
    (∀ t : Str, 0 ≤ (parseResponse t).score ∧ (parseResponse t).score ≤ 100 ∧
      (parseResponse t).score = min 100 (max 0 (scoreAcc (splitCh '\n' t)))) ∧
    (∀ t : Str, (∀ l ∈ splitCh '\n' t, startsW scoreTag l = false) →
      (parseResponse t).score = 0) ∧
    (∀ t : Str, (∀ l ∈ splitCh '\n' t, startsW scoreTag l = true →
        parseIntPy (pyStrip (pyReplace l scoreTag [])) = none) →
      (parseResponse t).score = 0) := by
  have hscore : ∀ t : Str,
      (parseResponse t).score = min 100 (max 0 (scoreAcc (splitCh '\n' t))) := by
    intro t
    show min 100 (max 0 ((splitCh '\n' t).foldl respStep ⟨[], 0, false⟩).sc) = _
    rw [foldl_respStep_sc]
    rfl
  have hkeep : ∀ (ls : List Str) (s : Int),
      (∀ l ∈ ls, startsW scoreTag l = false) → ls.foldl scoreStep s = s := by
    intro ls
    induction ls with
    | nil => intro s _; rfl
    | cons l rest ih =>
      intro s h
      have hl : startsW scoreTag l = false := h l (by simp)
      have hrest : ∀ l' ∈ rest, startsW scoreTag l' = false := by
        intro l' hl'; exact h l' (by simp [hl'])
      rw [List.foldl_cons, show scoreStep s l = s by
        unfold scoreStep; split_ifs with h1 h2
        · rfl
        · simp [h2] at hl
        · rfl]
      exact ih s hrest
  have hzero : ∀ (ls : List Str),
      (∀ l ∈ ls, startsW scoreTag l = true →
        parseIntPy (pyStrip (pyReplace l scoreTag [])) = none) →
      ls.foldl scoreStep 0 = 0 := by
    intro ls
    induction ls with
    | nil => intro _; rfl
    | cons l rest ih =>
      intro h
      have hl := h l (by simp)
      have hrest : ∀ l' ∈ rest, startsW scoreTag l' = true →
          parseIntPy (pyStrip (pyReplace l' scoreTag [])) = none := by
        intro l' hl'; exact h l' (by simp [hl'])
      rw [List.foldl_cons, show scoreStep 0 l = 0 by
        unfold scoreStep; split_ifs with h1 h2
        · rfl
        · rw [hl h2]; rfl
        · rfl]
      exact ih hrest
  refine ⟨fun t => ⟨?_, ?_, hscore t⟩, fun t h => ?_, fun t h => ?_⟩
  · rw [hscore t]; omega
  · rw [hscore t]; omega
  · rw [hscore t]
    show min 100 (max 0 ((splitCh '\n' t).foldl scoreStep 0)) = 0
    rw [hkeep _ _ h]; decide
  · rw [hscore t]
    show min 100 (max 0 ((splitCh '\n' t).foldl scoreStep 0)) = 0
    rw [hzero _ h]; decide

/-- C5 witness: the clamped-score characterization at concrete inputs,
including a score line of 150 clamped to 100 and a response with no
score line. -/
theorem C5_witness :
    (0 ≤ (parseResponse (str "SUFFICIENCY_SCORE: 150")).score ∧
      (parseResponse (str "SUFFICIENCY_SCORE: 150")).score ≤ 100 ∧
      (parseResponse (str "SUFFICIENCY_SCORE: 150")).score =
        min 100 (max 0 (scoreAcc (splitCh '\n' (str "SUFFICIENCY_SCORE: 150"))))) ∧
    (parseResponse (str "hello")).score = 0 ∧
    (parseResponse (str "SUFFICIENCY_SCORE: abc")).score = 0 :=
  ⟨C5_score_clamped.1 (str "SUFFICIENCY_SCORE: 150"),
   C5_score_clamped.2.1 (str "hello") (by decide),
   C5_score_clamped.2.2 (str "SUFFICIENCY_SCORE: abc") (by decide)⟩

/-- C9 counterexample: the empty model name contains no slash, the base
URL is absent (so not local), and the name matches no provider prefix,
yet the result is "llama3" rather than the name unchanged — refuting the
claim's final clause for the empty (and any whitespace-padded) name. -/
theorem C9_counterexample :
    hasCh '/' (str "") = false ∧
    normalize_model_id (str "") none = str "llama3" ∧
    normalize_model_id (str "") none ≠ str "" := by
  refine ⟨by decide, by decide, by decide⟩

/-- C9 (amended): after stripping surrounding whitespace and defaulting
an empty result to llama3, the code's normalization agrees exactly with
the claim's rule set: slash-names are kept, with the rewrite of a
leading models/ into the gemini namespace; otherwise a local base URL,
then the gpt, o1, o3, claude and gemini prefixes pick the provider;
anything else passes through. -/
theorem C9_normalize_characterization (mn : Str) (bu : Option Str) :
    normalize_model_id mn bu = normalizeSpec mn bu := by
  simp only [normalize_model_id, normalizeSpec, effectiveName, rewriteNamespaced,
    inferProvider]
  split_ifs <;> rfl

/-! ## Claim about text chunking -/

/-- Joining after appending one more piece to a non-empty list inserts
one separating space. -/
theorem joinSp_append_single (xs : List Str) (y : Str) (h : xs ≠ []) :
    joinSp (xs ++ [y]) = joinSp xs ++ ' ' :: y := by
  induction xs with
  | nil => exact absurd rfl h
  | cons x rest ih =>
    match rest with
    | [] => rfl
    | r :: rs =>
      have hih := ih (by simp)
      simp only [List.cons_append] at hih ⊢
      rw [show joinSp (x :: r :: (rs ++ [y])) = x ++ ' ' :: joinSp (r :: (rs ++ [y])) from rfl,
        hih, show joinSp (x :: r :: rs) = x ++ ' ' :: joinSp (r :: rs) from rfl]
      simp

/-- Space-join of a non-empty list in head/tail form. -/
theorem joinSp_cons_eq (v : Str) (ws : List Str) :
    joinSp (v :: ws) = v ++ tailJoin ws := by
  induction ws generalizing v with
  | nil => simp [joinSp, tailJoin]
  | cons w rest ih =>
    rw [show joinSp (v :: w :: rest) = v ++ ' ' :: joinSp (w :: rest) from rfl, ih]
    simp [tailJoin]

/-- Text appended to the final piece migrates out of the join. -/
theorem joinSp_last_absorb (xs : List Str) (z s : Str) :
    joinSp (xs ++ [z ++ s]) = joinSp (xs ++ [z]) ++ s := by
  match xs with
  | [] => rfl
  | x :: rest =>
    rw [joinSp_append_single (x :: rest) (z ++ s) (by simp),
      joinSp_append_single (x :: rest) z (by simp)]
    simp

/-- One chunking step appends exactly one space-separated word to the
flattened text and keeps the current chunk non-empty. -/
theorem chunkStep_flat (size : Int) (st : ChunkSt) (w : Str) (h : st.cur ≠ []) :
    (chunkStep size st w).cur ≠ [] ∧
    flatSt (chunkStep size st w) = flatSt st ++ ' ' :: w := by
  simp only [chunkStep]
  split_ifs with hc
  · refine ⟨by simp, ?_⟩
    show joinSp ((st.chunks ++ [joinSp st.cur]) ++ [joinSp [w]]) = _
    rw [show joinSp [w] = w from rfl,
      joinSp_append_single (st.chunks ++ [joinSp st.cur]) w (by simp)]
    rfl
  · refine ⟨by simp, ?_⟩
    show joinSp (st.chunks ++ [joinSp (st.cur ++ [w])]) = _
    rw [joinSp_append_single st.cur w h, joinSp_last_absorb]
    rfl

/-- Folding the remaining words appends them space-separated to the
flattened text. -/
theorem chunkFold_flat (size : Int) (ws : List Str) (st : ChunkSt)
    (h : st.cur ≠ []) :
    (ws.foldl (chunkStep size) st).cur ≠ [] ∧
    flatSt (ws.foldl (chunkStep size) st) = flatSt st ++ tailJoin ws := by
  induction ws generalizing st with
  | nil => exact ⟨h, by simp [tailJoin]⟩
  | cons w rest ih =>
    have hstep := chunkStep_flat size st w h
    have hrest := ih (chunkStep size st w) hstep.1
    refine ⟨hrest.1, ?_⟩
    rw [List.foldl_cons] at *
    rw [hrest.2, hstep.2]
    simp [tailJoin]

/-- C10: for every text and positive chunk size, the chunker returns a
non-empty list; when the text has at least one whitespace-separated
word, space-joining the chunks reproduces the space-join of the words
(no word lost, duplicated or reordered); when it has none, the result is
the one-element list holding the text itself. -/
theorem C10_chunk_preserves_words (text : Str) (size : Int) (hpos : 0 < size) :
    chunk_text text size ≠ [] ∧
    (pyWords text ≠ [] → joinSp (chunk_text text size) = joinSp (pyWords text)) ∧
    (pyWords text = [] → chunk_text text size = [text]) := by
  match hw : pyWords text with
  | [] =>
    refine ⟨?_, ?_, fun _ => ?_⟩ <;> simp [chunk_text, chunkFinish, hw]
  | v :: ws =>
    have hst1 : chunkStep size ⟨[], [], 0⟩ v = ⟨[], [v], (v.length : Int) + 1⟩ := by
      simp [chunkStep]
    have hfold := chunkFold_flat size ws ⟨[], [v], (v.length : Int) + 1⟩ (by simp)
    have hflat1 : flatSt ⟨[], [v], (v.length : Int) + 1⟩ = v := by
      simp [flatSt, joinSp]
    have hval : chunk_text text size =
        (ws.foldl (chunkStep size) ⟨[], [v], (v.length : Int) + 1⟩).chunks ++
          [joinSp (ws.foldl (chunkStep size) ⟨[], [v], (v.length : Int) + 1⟩).cur] := by
      unfold chunk_text
      rw [hw, List.foldl_cons, hst1]
      generalize ws.foldl (chunkStep size) ⟨[], [v], (v.length : Int) + 1⟩ = st2 at hfold ⊢
      have hcur : st2.cur.isEmpty = false := by
        cases hcc : st2.cur with
        | nil => exact absurd hcc hfold.1
        | cons a b => rfl
      unfold chunkFinish
      rw [hcur]
      cases hml : st2.chunks ++ [joinSp st2.cur] with
      | nil => exact absurd hml (by simp)
      | cons a b => simp
    have hjoin : joinSp (chunk_text text size) = joinSp (v :: ws) := by
      rw [hval]
      show flatSt _ = _
      rw [hfold.2, hflat1, joinSp_cons_eq]
    refine ⟨?_, fun _ => ?_, fun hc => ?_⟩
    · rw [hval]; simp
    · exact hjoin
    · exact absurd hc (by simp)

/-- C10 witness: the chunk theorem instantiated at a concrete text and
size. -/
theorem C10_witness :
    chunk_text (str "a bb ccc") 5 ≠ [] ∧
    (pyWords (str "a bb ccc") ≠ [] →
      joinSp (chunk_text (str "a bb ccc") 5) = joinSp (pyWords (str "a bb ccc"))) ∧
    (pyWords (str "a bb ccc") = [] → chunk_text (str "a bb ccc") 5 = [str "a bb ccc"]) :=
  C10_chunk_preserves_words (str "a bb ccc") 5 (by decide)

/-! ## Claim about batch ingestion -/

/-- Resume-loop fold with an arbitrary accumulator: successes and
per-file errors accumulate independently. -/
theorem processResumes_fold (files : List (Str × Option Str)) (a b : List Str) :
    files.foldl
      (fun acc f =>
        match f.2 with
        | some txt => (acc.1 ++ [txt], acc.2)
        | none => (acc.1, acc.2 ++ [str "Error processing " ++ f.1]))
      (a, b) =
      (a ++ files.filterMap (fun f => f.2),
       b ++ (files.filter (fun f => f.2.isNone)).map
         (fun f => str "Error processing " ++ f.1)) := by
  induction files generalizing a b with
  | nil => simp
  | cons f rest ih =>
    match hf : f.2 with
    | some txt =>
      rw [List.foldl_cons]
      simp only [hf]
      rw [ih]
      simp [List.filterMap_cons, List.filter_cons, hf]
    | none =>
      rw [List.foldl_cons]
      simp only [hf]
      rw [ih]
      simp [List.filterMap_cons, List.filter_cons, hf]

/-- C8 counterexample: a backlog batch whose first file is corrupt and
whose other two files are valid yields no ingested items at all and one
batch-level error — not the two valid files' items with a per-file
error, refuting the claim for backlog batches. -/
theorem C8_counterexample :
    processBacklog [(str "bad.csv", none), (str "b.csv", some [str "B"]),
      (str "c.csv", some [str "C"])] = ([], [str "Error processing backlog"]) ∧
    ([] : List Str) ≠ [str "B", str "C"] := by
  refine ⟨by decide, by decide⟩

/-- C8 (amended): resume batches have per-file error isolation — every
parseable file is ingested and every failing file contributes exactly
one per-file error; backlog batches do not — the first failing file
aborts the batch with a single batch-level error, keeping only the items
of the files before it, while an all-valid backlog batch ingests
everything with no error. -/
theorem C8_batch_error_semantics :
    (∀ files : List (Str × Option Str),
      processResumes files =
        (files.filterMap (fun f => f.2),
         (files.filter (fun f => f.2.isNone)).map
           (fun f => str "Error processing " ++ f.1))) ∧
    (∀ (pre : List (Str × Option (List Str))) (n : Str)
        (suf : List (Str × Option (List Str))),
      (∀ f ∈ pre, f.2 ≠ none) →
      processBacklog (pre ++ (n, none) :: suf) =
        ((pre.filterMap (fun f => f.2)).flatten,
         [str "Error processing backlog"])) ∧
    (∀ files : List (Str × Option (List Str)),
      (∀ f ∈ files, f.2 ≠ none) →
      processBacklog files = ((files.filterMap (fun f => f.2)).flatten, [])) := by
  refine ⟨?_, ?_, ?_⟩
  · intro files
    unfold processResumes
    rw [processResumes_fold]
    simp
  · intro pre n suf hpre
    induction pre with
    | nil => rfl
    | cons f rest ih =>
      obtain ⟨m, p⟩ := f
      cases hp : p with
      | none =>
        rw [hp] at hpre
        exact absurd rfl (hpre (m, none) (by simp))
      | some items =>
        rw [hp] at hpre
        have hrest : ∀ g ∈ rest, g.2 ≠ none := fun g hg => hpre g (by simp [hg])
        rw [List.cons_append,
          show processBacklog ((m, some items) :: (rest ++ (n, none) :: suf)) =
            (items ++ (processBacklog (rest ++ (n, none) :: suf)).1,
             (processBacklog (rest ++ (n, none) :: suf)).2) from rfl,
          ih hrest]
        simp [List.filterMap_cons]
  · intro files hall
    induction files with
    | nil => rfl
    | cons f rest ih =>
      obtain ⟨m, p⟩ := f
      cases hp : p with
      | none =>
        rw [hp] at hall
        exact absurd rfl (hall (m, none) (by simp))
      | some items =>
        rw [hp] at hall
        have hrest : ∀ g ∈ rest, g.2 ≠ none := fun g hg => hall g (by simp [hg])
        rw [show processBacklog ((m, some items) :: rest) =
            (items ++ (processBacklog rest).1, (processBacklog rest).2) from rfl,
          ih hrest]
        simp [List.filterMap_cons]

/-- C8 witness: the amended batch semantics at concrete batches. -/
theorem C8_witness :
    processResumes [(str "a.pdf", some (str "A")), (str "b.pdf", none)] =
      ([(str "a.pdf", some (str "A")), (str "b.pdf", none)].filterMap (fun f => f.2),
       ([(str "a.pdf", some (str "A")), (str "b.pdf", none)].filter
         (fun f => f.2.isNone)).map (fun f => str "Error processing " ++ f.1)) ∧
    processBacklog [(str "a.csv", some [str "A"]), (str "bad.csv", none),
        (str "c.csv", some [str "C"])] =
      (([(str "a.csv", some [str "A"])].filterMap (fun f => f.2)).flatten,
       [str "Error processing backlog"]) :=
  ⟨C8_batch_error_semantics.1 [(str "a.pdf", some (str "A")), (str "b.pdf", none)],
   C8_batch_error_semantics.2.1 [(str "a.csv", some [str "A"])] (str "bad.csv")
     [(str "c.csv", some [str "C"])] (by decide)⟩

/-! ## Claims about the plan extractor -/

/-- Members of an enumerated list come from the underlying list. -/
theorem enumF_mem {α : Type} {ls : List α} {i : Nat} {il : Nat × α}
    (h : il ∈ enumF i ls) : il.2 ∈ ls := by
  induction ls generalizing i with
  | nil => simp [enumF] at h
  | cons a rest ih =>
    simp only [enumF, List.mem_cons] at h
    rcases h with h | h
    · simp [h]
    · exact List.mem_cons_of_mem _ (ih h)

/-- Lines without a pipe never open a table section nor capture a row. -/
theorem scan_no_pipe (ls : List (Nat × Str))
    (h : ∀ il ∈ ls, hasCh '|' il.2 = false) :
    ls.foldl scanStep ⟨false, []⟩ = ⟨false, []⟩ := by
  induction ls with
  | nil => rfl
  | cons il rest ih =>
    have hl : hasCh '|' il.2 = false := h il (by simp)
    have hrest : ∀ il' ∈ rest, hasCh '|' il'.2 = false := by
      intro il' hm; exact h il' (by simp [hm])
    rw [List.foldl_cons, show scanStep ⟨false, []⟩ il = ⟨false, []⟩ by
      obtain ⟨i, line⟩ := il
      simp only [scanStep]
      simp at hl
      simp [hl]]
    exact ih hrest

/-- C3: the extractor is total (every operation of the embedding is a
function, mirroring that every raising statement of the source sits
inside a handler); on the empty text, and on any text with no table
markup and no tier-2 pattern match, it returns no assignments while the
frame still carries the five expected column names. -/
theorem C3_empty_and_irrelevant :
    parse_sprint_plan_output (str "") = (⟨fiveCols, []⟩, str "") ∧
    (∀ t : Str, (∀ l ∈ splitCh '\n' t, hasCh '|' l = false) → tier2 t = [] →
      parse_sprint_plan_output t = (⟨fiveCols, []⟩, t)) := by
  refine ⟨by decide, ?_⟩
  intro t hp h2
  have hrows : (enumF 0 (splitCh '\n' t)).foldl scanStep ⟨false, []⟩ = ⟨false, []⟩ :=
    scan_no_pipe _ (fun il hil => hp il.2 (enumF_mem hil))
  have h1 : tier1All t = [] := by
    unfold tier1All
    rw [hrows]
  have h3 : assembleAssignments t = [] := by
    unfold assembleAssignments
    rw [h1]
    exact h2
  unfold parse_sprint_plan_output
  rw [h3]
  rfl

/-- C3 witness: the irrelevant-text case applied to a concrete text with
no pipes and no pattern matches. -/
theorem C3_witness :
    parse_sprint_plan_output (str "hello world, nothing here") =
      (⟨fiveCols, []⟩, str "hello world, nothing here") :=
  C3_empty_and_irrelevant.2 (str "hello world, nothing here")
    (by decide) (by decide)

/-- C2 (code bug): on a well-formed five-column markdown table WITH the
standard dash separator row, the scanner's final else branch closes the
table section at the separator (it contains a pipe but no alphanumeric
character), so tier 1 keeps only the header, the regex tier matches
nothing, and the extractor returns no assignments — although the same
table WITHOUT the separator row parses into the expected assignment,
and the dead separator-filtering code (utils.py lines 205-210 and 241)
shows separator rows were intended to be tolerated. -/
theorem C2_separator_breaks_tier1 :
    parse_sprint_plan_output (str "| Task_ID | Assignee | Estimated_Hours | Risk_Level | Reasoning_Trace |\n|---|---|---|---|---|\n| T-101 | John Doe | 8 | Low | Skill match |") =
      (⟨fiveCols, []⟩,
       str "| Task_ID | Assignee | Estimated_Hours | Risk_Level | Reasoning_Trace |\n|---|---|---|---|---|\n| T-101 | John Doe | 8 | Low | Skill match |") ∧
    (parse_sprint_plan_output (str "| Task_ID | Assignee | Estimated_Hours | Risk_Level | Reasoning_Trace |\n| T-101 | John Doe | 8 | Low | Skill match |")).1.rows =
      [⟨str "T-101", str "John Doe", str "8", str "Low", str "Skill match"⟩] := by
  refine ⟨by decide, by decide⟩

/-- C7 (code bug): on the claim's own example text the tier-2 regex
produces one match, but the lazy assignee group captures the single
letter J, the hours group captures nothing, and the trailing optional
letters group captures ane as the risk — not the advertised Jane Doe, 8
and Low (the code comment at utils.py line 301 documents the same
intended reading). -/
theorem C7_regex_mangles_fields :
    parse_sprint_plan_output (str "T-101: Jane Doe, Hours: 8, Risk: Low") =
      (⟨fiveCols,
        [⟨str "T-101", str "J", str "N/A", str "ane", str "See full report below"⟩]⟩,
       str "T-101: Jane Doe, Hours: 8, Risk: Low") ∧
    str "J" ≠ str "Jane Doe" ∧ str "ane" ≠ str "Low" ∧ str "N/A" ≠ str "8" := by
  refine ⟨by decide, by decide, by decide, by decide⟩

/-! ## Supporting lemmas for the wrapped-reasoning claim -/

/-- A prefix of `a` is a prefix of `a ++ b`. -/
theorem startsW_append_left (n a b : Str) (h : startsW n a = true) :
    startsW n (a ++ b) = true := by
  induction n generalizing a with
  | nil => rfl
  | cons c ns ih =>
    match a with
    | [] => simp [startsW] at h
    | d :: as =>
      simp only [startsW, Bool.and_eq_true] at h
      simp only [List.cons_append, startsW, Bool.and_eq_true]
      exact ⟨h.1, ih as h.2⟩

/-- A matched prefix decomposes the string. -/
theorem startsW_exists (n a : Str) (h : startsW n a = true) :
    ∃ r, a = n ++ r := by
  induction n generalizing a with
  | nil => exact ⟨a, rfl⟩
  | cons c ns ih =>
    match a with
    | [] => simp [startsW] at h
    | d :: as =>
      simp only [startsW, Bool.and_eq_true, beq_iff_eq] at h
      obtain ⟨r, hr⟩ := ih as h.2
      exact ⟨r, by rw [h.1, hr]; rfl⟩

/-- A string starting with the needle contains it. -/
theorem hasSub_of_startsW (n l : Str) (h : startsW n l = true) :
    hasSub n l = true := by
  match l with
  | [] =>
    match n with
    | [] => rfl
    | _ :: _ => simp [startsW] at h
  | c :: rest => simp [hasSub, h]

/-- Characters of a contained needle occur in the haystack. -/
theorem hasSub_subset (n hay : Str) (h : hasSub n hay = true) :
    ∀ c ∈ n, c ∈ hay := by
  induction hay with
  | nil =>
    intro c hc
    simp only [hasSub, List.isEmpty_iff] at h
    subst h
    simp at hc
  | cons a rest ih =>
    intro c hc
    simp only [hasSub, Bool.or_eq_true] at h
    rcases h with h | h
    · obtain ⟨r, hr⟩ := startsW_exists n _ h
      rw [hr]
      exact List.mem_append_left _ hc
    · exact List.mem_cons_of_mem _ (ih h c hc)

/-- Single-character membership distributes over append. -/
theorem hasCh_append (c : Char) (a b : Str) :
    hasCh c (a ++ b) = (hasCh c a || hasCh c b) := by
  simp [hasCh, List.any_append]

/-- Bound form of the lowercase-letter predicate. -/
theorem isLowerL_val {c : Char} (h : isLowerL c = true) :
    97 ≤ c.toNat ∧ c.toNat ≤ 122 := by
  simpa [isLowerL] using h

/-- A lowercase letter differs from any character outside the lowercase
code-point range. -/
theorem isLowerL_ne {c : Char} (h : isLowerL c = true) (ch : Char)
    (hch : ch.toNat < 97 ∨ 122 < ch.toNat) : (c == ch) = false := by
  have hv := isLowerL_val h
  apply beq_eq_false_iff_ne.2
  intro he
  subst he
  omega

/-- Lowercase letters are not Python whitespace. -/
theorem isLowerL_not_space {c : Char} (h : isLowerL c = true) :
    isPySpace c = false := by
  have h1 := isLowerL_ne h ' ' (by decide)
  have h2 := isLowerL_ne h '\t' (by decide)
  have h3 := isLowerL_ne h '\n' (by decide)
  have h4 := isLowerL_ne h '\r' (by decide)
  have h5 := isLowerL_ne h '\x0b' (by decide)
  have h6 := isLowerL_ne h '\x0c' (by decide)
  simp [isPySpace, h1, h2, h3, h4, h5, h6]

/-- Lowercase letters are fixed by `Char.toLower`. -/
theorem toLower_lower {c : Char} (h : isLowerL c = true) : c.toLower = c := by
  have hv := isLowerL_val h
  show (if c.toNat ≥ 65 ∧ c.toNat ≤ 90 then Char.ofNat (c.toNat + 32) else c) = c
  rw [if_neg (by omega)]

/-- No character of a lowercase-only string equals a character outside
the lowercase range. -/
theorem hasCh_lower_false (t : Str) (hall : t.all isLowerL = true) (ch : Char)
    (hch : ch.toNat < 97 ∨ 122 < ch.toNat) : hasCh ch t = false := by
  simp only [hasCh, List.any_eq_false]
  intro c hc
  simp [isLowerL_ne (List.all_eq_true.1 hall c hc) ch hch]

/-- Lowercase-only strings are fixed by `pyLower`. -/
theorem pyLower_lower (t : Str) (hall : t.all isLowerL = true) : pyLower t = t := by
  unfold pyLower
  have hc : ∀ c ∈ t, Char.toLower c = c :=
    fun c hcm => toLower_lower (List.all_eq_true.1 hall c hcm)
  calc t.map Char.toLower = t.map id := List.map_congr_left hc
    _ = t := List.map_id t

/-- The split of any string is non-empty. -/
theorem splitCh_ne_nil (sep : Char) (l : Str) : splitCh sep l ≠ [] := by
  induction l with
  | nil => simp [splitCh]
  | cons c rest ih =>
    unfold splitCh
    split_ifs
    · simp
    · match hr : splitCh sep rest with
      | [] => simp
      | g :: gs => simp

/-- Splitting a separator-free string yields the single piece. -/
theorem splitCh_nosep (sep : Char) (l : Str)
    (h : ∀ c ∈ l, (c == sep) = false) : splitCh sep l = [l] := by
  induction l with
  | nil => rfl
  | cons c rest ih =>
    have hc : (c == sep) = false := h c (by simp)
    have hrest : ∀ c' ∈ rest, (c' == sep) = false := fun c' hm => h c' (by simp [hm])
    unfold splitCh
    rw [if_neg (by simp [hc]), ih hrest]

/-- One-step unfolding of `splitCh` on a cons cell. -/
theorem splitCh_cons (sep c : Char) (rest : Str) :
    splitCh sep (c :: rest) =
      if c == sep then [] :: splitCh sep rest
      else
        match splitCh sep rest with
        | g :: gs => (c :: g) :: gs
        | [] => [[c]] := rfl

/-- Splitting an appended string: the last piece of the left part fuses
with the first piece of the right part. -/
theorem splitCh_append (sep : Char) (a b : Str) :
    splitCh sep (a ++ b) =
      (splitCh sep a).dropLast ++
        ((splitCh sep a).getLastD [] ++ (splitCh sep b).headD []) ::
          (splitCh sep b).tail := by
  induction a with
  | nil =>
    match hb : splitCh sep b with
    | [] => exact absurd hb (splitCh_ne_nil sep b)
    | g :: gs => simp [splitCh, hb]
  | cons c as ih =>
    rw [List.cons_append, splitCh_cons, splitCh_cons sep c as]
    by_cases hc : (c == sep) = true
    · rw [if_pos hc, if_pos hc, ih]
      match ha : splitCh sep as with
      | [] => exact absurd ha (splitCh_ne_nil sep as)
      | g :: gs => simp
    · have hcf : (c == sep) = false := by simpa using hc
      rw [if_neg (by simp [hcf]), if_neg (by simp [hcf]), ih]
      match ha : splitCh sep as with
      | [] => exact absurd ha (splitCh_ne_nil sep as)
      | g :: gs =>
        match gs with
        | [] => simp
        | g2 :: gs2 => simp

/-- Dropping leading whitespace stops at a non-space head. -/
theorem trimL_cons {c : Char} (l : Str) (h : isPySpace c = false) :
    trimL (c :: l) = c :: l := by
  simp [trimL, List.dropWhile_cons, h]

/-- Trailing trim keeps a string ending in lowercase letters. -/
theorem trimR_keep (a t : Str) (ht : t ≠ []) (hall : t.all isLowerL = true) :
    trimR (a ++ t) = a ++ t := by
  unfold trimR
  rw [List.reverse_append]
  match hr : t.reverse with
  | [] => exact absurd (by simpa using hr) ht
  | c :: r =>
    have hc : c ∈ t := by
      have : c ∈ t.reverse := by rw [hr]; simp
      simpa using this
    have hcl : isLowerL c = true := List.all_eq_true.1 hall c hc
    rw [List.cons_append, List.dropWhile_cons,
      if_neg (by simp [isLowerL_not_space hcl])]
    rw [show (c :: (r ++ a.reverse)) = (c :: r) ++ a.reverse from rfl, ← hr,
      List.reverse_append]
    simp

/-- Full strip keeps a string with a non-space head that ends in
lowercase letters. -/
theorem pyStrip_keep (c : Char) (m t : Str) (hc : isPySpace c = false)
    (ht : t ≠ []) (hall : t.all isLowerL = true) :
    pyStrip (c :: m ++ t) = c :: m ++ t := by
  unfold pyStrip
  rw [show (c :: m ++ t : Str) = c :: (m ++ t) from rfl, trimL_cons _ hc,
    show (c :: (m ++ t) : Str) = (c :: m) ++ t from rfl, trimR_keep _ _ ht hall]

/-- A needle containing a character missing from the haystack is not a
substring. -/
theorem hasSub_false_of_missing (n hay : Str) (c : Char) (hc : c ∈ n)
    (hmiss : c ∉ hay) : hasSub n hay = false := by
  cases hh : hasSub n hay with
  | false => rfl
  | true => exact absurd (hasSub_subset n hay hh c hc) hmiss

/-- Characters of the continuation line are never the given
out-of-range character. -/
theorem c6Cont_not_mem (t : Str) (hall : t.all isLowerL = true) (ch : Char)
    (hconc : ch ∉ str "Assignment: ") (hch : ch.toNat < 97 ∨ 122 < ch.toNat) :
    ch ∉ c6Cont t := by
  intro hmem
  rcases List.mem_append.1 hmem with hmem | hmem
  · exact hconc hmem
  · have := isLowerL_ne (List.all_eq_true.1 hall ch hmem) ch hch
    simp at this

/-- Line decomposition of the family text. -/
theorem c6_lines (t : Str) (hall : t.all isLowerL = true) :
    splitCh '\n' (c6Text t) = [c6Header, c6Row, c6Cont t] := by
  have hcont : splitCh '\n' (c6Cont t) = [c6Cont t] := by
    apply splitCh_nosep
    intro c hc
    rcases List.mem_append.1 hc with hc | hc
    · exact (show ∀ c ∈ str "Assignment: ", (c == '\n') = false by decide) c hc
    · exact isLowerL_ne (List.all_eq_true.1 hall c hc) '\n' (by decide)
  have hrow : splitCh '\n' (c6Row ++ ('\n' :: c6Cont t)) =
      c6Row :: splitCh '\n' (c6Cont t) := by
    rw [splitCh_append]
    rw [show splitCh '\n' ('\n' :: c6Cont t) = [] :: splitCh '\n' (c6Cont t) by
      rw [splitCh_cons, if_pos (by simp)]]
    rw [show splitCh '\n' c6Row = [c6Row] from by decide]
    rw [hcont]
    rfl
  unfold c6Text
  rw [splitCh_append,
    show splitCh '\n' ('\n' :: (c6Row ++ ('\n' :: c6Cont t))) =
      [] :: splitCh '\n' (c6Row ++ ('\n' :: c6Cont t)) by
        rw [splitCh_cons, if_pos (by simp)],
    hrow, hcont, show splitCh '\n' c6Header = [c6Header] from by decide]
  rfl

/-- The continuation line contains no pipe. -/
theorem c6Cont_no_pipe (t : Str) (hall : t.all isLowerL = true) :
    hasCh '|' (c6Cont t) = false := by
  unfold c6Cont
  rw [hasCh_append, show hasCh '|' (str "Assignment: ") = false from by decide,
    hasCh_lower_false t hall '|' (by decide)]
  rfl

/-- The continuation line is already stripped. -/
theorem c6Cont_strip (t : Str) (ht : t ≠ []) (hall : t.all isLowerL = true) :
    pyStrip (c6Cont t) = c6Cont t := by
  rw [show c6Cont t = 'A' :: (str "ssignment: " ++ t) from rfl]
  exact pyStrip_keep 'A' _ t (by decide) ht hall

/-- Lowercasing the continuation line lowers only the keyword. -/
theorem c6Cont_lower (t : Str) (hall : t.all isLowerL = true) :
    pyLower (c6Cont t) = str "assignment: " ++ t := by
  unfold c6Cont pyLower
  rw [List.map_append,
    show (str "Assignment: ").map Char.toLower = str "assignment: " from by decide]
  have hfix := pyLower_lower t hall
  unfold pyLower at hfix
  rw [hfix]

/-- The lowered continuation line contains the continuation keyword. -/
theorem c6Cont_kw (t : Str) :
    hasSub (str "assignment:") (str "assignment: " ++ t) = true :=
  hasSub_of_startsW _ _ (startsW_append_left _ _ _ (by decide))

/-- The continuation line is non-empty. -/
theorem c6Cont_ne (t : Str) : (c6Cont t).isEmpty = false := rfl

/-- Scanner effect of the continuation line: within two lines of the
captured row and carrying a continuation keyword, its stripped text is
space-merged into the last captured row. -/
theorem c6_scanStep (t : Str) (ht : t ≠ []) (hall : t.all isLowerL = true) :
    scanStep ⟨true, [(c6Header, 0), (c6Row, 1)]⟩ (2, c6Cont t) =
      ⟨true, [(c6Header, 0), (c6Row ++ ' ' :: c6Cont t, 1)]⟩ := by
  have hp := c6Cont_no_pipe t hall
  have hs := c6Cont_strip t ht hall
  have hl := c6Cont_lower t hall
  have hk := c6Cont_kw t
  have hn := c6Cont_ne t
  simp only [scanStep, hp, hs, hl, hk, hn, Bool.and_false, Bool.false_and,
    Bool.not_false, Bool.true_and, Bool.and_true, if_false]
  simp [contKws]

/-- Scanner result on the family's three lines. -/
theorem c6_scan (t : Str) (ht : t ≠ []) (hall : t.all isLowerL = true) :
    (enumF 0 [c6Header, c6Row, c6Cont t]).foldl scanStep ⟨false, []⟩ =
      ⟨true, [(c6Header, 0), (c6Row ++ ' ' :: c6Cont t, 1)]⟩ := by
  rw [show enumF 0 [c6Header, c6Row, c6Cont t] =
    [(0, c6Header), (1, c6Row), (2, c6Cont t)] from rfl]
  rw [List.foldl_cons, List.foldl_cons, List.foldl_cons, List.foldl_nil]
  rw [show scanStep ⟨false, []⟩ (0, c6Header) = ⟨true, [(c6Header, 0)]⟩ from by decide]
  rw [show scanStep ⟨true, [(c6Header, 0)]⟩ (1, c6Row) =
    ⟨true, [(c6Header, 0), (c6Row, 1)]⟩ from by decide]
  exact c6_scanStep t ht hall

/-- Stripping the space-led continuation cell yields the line itself. -/
theorem c6Cont_strip_space (t : Str) (ht : t ≠ []) (hall : t.all isLowerL = true) :
    pyStrip (' ' :: c6Cont t) = c6Cont t := by
  unfold pyStrip
  rw [show trimL (' ' :: c6Cont t) = trimL (c6Cont t) by
      simp [trimL, List.dropWhile_cons, show isPySpace ' ' = true from rfl],
    show trimL (c6Cont t) = c6Cont t by
      rw [show c6Cont t = 'A' :: (str "ssignment: " ++ t) from rfl]
      exact trimL_cons _ (by decide),
    show c6Cont t = str "Assignment: " ++ t from rfl,
    trimR_keep _ t ht hall]

/-- Cell decomposition of the merged table row. -/
theorem c6_cleanup (t : Str) (ht : t ≠ []) (hall : t.all isLowerL = true) :
    cleanupRow (c6Row ++ ' ' :: c6Cont t) =
      some [str "T-1", str "Alice", str "8", str "Low", str "Because", c6Cont t] := by
  have hpipe : hasCh '|' (c6Row ++ ' ' :: c6Cont t) = true := by
    rw [hasCh_append, show hasCh '|' c6Row = true from by decide]
    rfl
  have hsplit : splitCh '|' (c6Row ++ ' ' :: c6Cont t) =
      [[], str " T-1 ", str " Alice ", str " 8 ", str " Low ", str " Because ",
       ' ' :: c6Cont t] := by
    rw [splitCh_append,
      show splitCh '|' c6Row =
        [[], str " T-1 ", str " Alice ", str " 8 ", str " Low ", str " Because ",
         []] from by decide,
      splitCh_nosep '|' (' ' :: c6Cont t) (by
        intro c hc
        rcases List.mem_cons.1 hc with hc | hc
        · subst hc; decide
        · rcases List.mem_append.1 hc with hc | hc
          · exact (show ∀ c ∈ str "Assignment: ", (c == '|') = false by decide) c hc
          · exact isLowerL_ne (List.all_eq_true.1 hall c hc) '|' (by decide))]
    rfl
  unfold cleanupRow
  rw [if_pos hpipe, hsplit]
  simp only [List.map_cons, List.map_nil,
    show pyStrip ([] : Str) = [] from rfl,
    show pyStrip (str " T-1 ") = str "T-1" from by decide,
    show pyStrip (str " Alice ") = str "Alice" from by decide,
    show pyStrip (str " 8 ") = str "8" from by decide,
    show pyStrip (str " Low ") = str "Low" from by decide,
    show pyStrip (str " Because ") = str "Because" from by decide,
    c6Cont_strip_space t ht hall]
  simp [c6Cont_ne t]
  intro _ _ _ _ _
  rw [c6Cont_strip t ht hall]
  refine ⟨by rw [show c6Cont t = 'A' :: (str "ssignment: " ++ t) from rfl]; simp,
    ⟨'A', by rw [show c6Cont t = 'A' :: (str "ssignment: " ++ t) from rfl]; simp,
      by decide⟩⟩

/-- The raw continuation line carries the case-sensitive keyword. -/
theorem c6Cont_kw2 (t : Str) : hasSub (str "Assignment:") (c6Cont t) = true :=
  hasSub_of_startsW _ _ (startsW_append_left _ _ _ (by decide))

/-- The starred keywords do not occur in the continuation line. -/
theorem c6Cont_no_star (t : Str) (hall : t.all isLowerL = true) (n : Str)
    (hstar : '*' ∈ n) : hasSub n (c6Cont t) = false :=
  hasSub_false_of_missing n _ '*' hstar
    (c6Cont_not_mem t hall '*' (by decide) (by decide))

/-- The reasoning re-scan collects exactly the continuation line. -/
theorem c6_collect (t : Str) (ht : t ≠ []) (hall : t.all isLowerL = true) :
    collectGo [c6Header, c6Row, c6Cont t] [2] [] = [c6Cont t] := by
  have hp := c6Cont_no_pipe t hall
  have hs := c6Cont_strip t ht hall
  simp only [collectGo, List.getD_cons_succ, List.getD_cons_zero, hs, hp,
    Bool.false_and, c6Cont_ne t, Bool.not_false,
    show startsW (str "|") (c6Cont t) = false from rfl, Bool.and_true,
    Bool.true_and]
  simp [contKws2, c6Cont_kw2 t,
    c6Cont_no_star t hall (str "**Assignment:**") (by decide),
    c6Cont_no_star t hall (str "**Estimate:**") (by decide),
    c6Cont_no_star t hall (str "**Risk:**") (by decide)]

/-- Stripping the collected reasoning text. -/
theorem c6_reason_strip (t : Str) (ht : t ≠ []) (hall : t.all isLowerL = true) :
    pyStrip (str "Because" ++ ' ' :: c6Cont t) = str "Because Assignment: " ++ t := by
  rw [show (str "Because" ++ ' ' :: c6Cont t : Str) =
    'B' :: (str "ecause Assignment: " ++ t) from rfl]
  exact pyStrip_keep 'B' _ t (by decide) ht hall

/-- Row extraction on the family: the cells come from the merged row's
first five columns and the re-scan appends the continuation line to the
reasoning cell. -/
theorem c6_extract (t : Str) (ht : t ≠ []) (hall : t.all isLowerL = true) :
    extractRow [c6Header, c6Row, c6Cont t]
      ⟨some 0, some 1, some 2, some 3, some 4⟩
      [str "T-1", str "Alice", str "8", str "Low", str "Because", c6Cont t] =
      some ⟨str "T-1", str "Alice", str "8", str "Low",
        str "Because Assignment: " ++ t⟩ := by
  have hfind : findRowLine [c6Header, c6Row, c6Cont t] (str "T-1")
      ((str "Alice").take 10) = some 1 := by
    unfold findRowLine
    rw [show enumF 0 [c6Header, c6Row, c6Cont t] =
      [(0, c6Header), (1, c6Row), (2, c6Cont t)] from rfl]
    simp only [List.findSome?_cons]
    rw [if_neg (by decide), if_pos (by decide)]
  have hskip : ([str "T-1", str "Alice", str "8", str "Low", str "Because",
      c6Cont t].all (fun part =>
        (pyStrip (pyReplace (pyReplace (pyStrip part) (str "-") []) (str ":") [])).isEmpty)) =
      false := by
    simp only [List.all_cons]
    rw [show (pyStrip (pyReplace (pyReplace (pyStrip (str "T-1")) (str "-") [])
      (str ":") [])).isEmpty = false from by decide]
    rfl
  unfold extractRow
  rw [if_neg (by simp [hskip])]
  rw [if_pos (by simp only [List.length_cons, List.length_nil]; decide)]
  simp only [getCell]
  rw [show [str "T-1", str "Alice", str "8", str "Low", str "Because",
    c6Cont t].length = 6 from by simp]
  simp only [show ((0 : Nat) < 6) = True from by simp,
    show ((1 : Nat) < 6) = True from by simp,
    show ((2 : Nat) < 6) = True from by simp,
    show ((3 : Nat) < 6) = True from by simp,
    show ((4 : Nat) < 6) = True from by simp, if_true,
    List.getD_cons_zero, List.getD_cons_succ]
  rw [hfind]
  simp only [reasoningOf]
  rw [show min (1 + 15) (List.length [c6Header, c6Row, c6Cont t]) = 3 from by simp]
  rw [show List.range' (1 + 1) (3 - (1 + 1)) = [2] from by decide]
  rw [c6_collect t ht hall]
  simp only [show joinSp [c6Cont t] = c6Cont t from rfl,
    List.isEmpty_cons, Bool.false_eq_true, if_false]
  rw [c6_reason_strip t ht hall]
  simp only [show ((str "Because Assignment: " ++ t : Str)).isEmpty = false from rfl,
    Bool.false_eq_true, if_false]
  rw [if_pos (by decide)]

/-- C6 counterexample: the reasoning continuation wraps onto the next
line (no pipe, within 2 lines of the row), but the wrapped text is short
and keyword-free, so the secondary re-scan drops it — the returned
Reasoning_Trace is just the cell text, without the wrapped text
appended, refuting the claim. -/
theorem C6_counterexample :
    (parse_sprint_plan_output (str "| Task_ID | Assignee | Estimated_Hours | Risk_Level | Reasoning_Trace |\n| T-1 | Alice | 8 | Low | Because |\ntiny tail")).1.rows =
      [⟨str "T-1", str "Alice", str "8", str "Low", str "Because"⟩] ∧
    str "Because" ≠ str "Because tiny tail" := by
  refine ⟨by decide, by decide⟩

/-- C6 (amended): the within-2-lines wrapped text is merged into the
captured row but reaches the returned Reasoning_Trace only when the
secondary re-scan keeps the wrapped line — when it carries a reasoning
keyword (Assignment:, Estimate:, Risk:) or is longer than 50
characters; short keyword-free wrapped lines are dropped.  Proved for
the keyword case over the whole family of one-row tables whose wrapped
line is Assignment: followed by any non-empty lowercase word. -/
theorem C6_keyword_continuation_appended (t : Str) (ht : t ≠ [])
    (hall : t.all isLowerL = true) :
    (parse_sprint_plan_output (c6Text t)).1.rows =
      [⟨str "T-1", str "Alice", str "8", str "Low",
        str "Because Assignment: " ++ t⟩] := by
  have hlines := c6_lines t hall
  have hscan := c6_scan t ht hall
  have h1 : tier1All (c6Text t) =
      tier1 [c6Header, c6Row, c6Cont t]
        [(c6Header, 0), (c6Row ++ ' ' :: c6Cont t, 1)] := by
    unfold tier1All
    rw [hlines, hscan]
  have h2 : tier1 [c6Header, c6Row, c6Cont t]
      [(c6Header, 0), (c6Row ++ ' ' :: c6Cont t, 1)] =
      [⟨str "T-1", str "Alice", str "8", str "Low",
        str "Because Assignment: " ++ t⟩] := by
    unfold tier1
    simp only [List.filterMap_cons, List.filterMap_nil,
      show cleanupRow c6Header = some [str "Task_ID", str "Assignee",
        str "Estimated_Hours", str "Risk_Level", str "Reasoning_Trace"] from by decide,
      c6_cleanup t ht hall]
    simp only [show resolveCols [str "Task_ID", str "Assignee",
      str "Estimated_Hours", str "Risk_Level", str "Reasoning_Trace"] =
      ⟨some 0, some 1, some 2, some 3, some 4⟩ from by decide]
    simp only [List.filterMap_cons, List.filterMap_nil, c6_extract t ht hall]
  unfold parse_sprint_plan_output assembleAssignments
  rw [h1, h2]
  rfl

/-- C6 witness: the amended theorem at the concrete lowercase word
why. -/
theorem C6_witness :
    (parse_sprint_plan_output (c6Text (str "why"))).1.rows =
      [⟨str "T-1", str "Alice", str "8", str "Low",
        str "Because Assignment: " ++ str "why"⟩] :=
  C6_keyword_continuation_appended (str "why") (by decide) (by decide)
